import Mathlib

/-!
# github-vul: the Executor and its configuration

A shallow embedding of `main.go`.

* The HTTP client of an `Executor` is a function from the requests sent so far and
  the request being sent to the response, `none` when the client produces no
  response (connection failure: `client.Do` returns a nil response).
* Every function that talks to the network passes the list of requests sent so far
  (`Trace`) explicitly and returns it extended, next to an `Outcome`: a normal
  return, a runtime panic (nil dereference), or exhaustion of the fuel that bounds
  the listing loop.
* A Go `error` is `Option GoError`, `none` being `nil`.
* `http.NewRequest` is a library function; the three methods the program uses are
  valid tokens, so only parsing the URL can fail. The parse is the parameter
  `urlErr` (`none` when the URL parses).
* A response body is represented by what decoding it as a repository array gives.
* Lines printed with `fmt.Printf` are not part of the model.
-/

namespace GithubVul

/-- Go error values: `errors.New msg`, and what `fmt.Errorf` gives for a format
with a `%w` operand, which may be nil (the result is an error all the same). -/
inductive GoError where
  | new (msg : String)
  | wrap (msg : String) (inner : GoError)
  | wrapNil (msg : String)
  deriving DecidableEq

/-- The call `fmt.Errorf(msg + "%w\n", err)`: never nil. -/
def errorf (msg : String) (err : Option GoError) : GoError :=
  match err with
  | some e => .wrap msg e
  | none => .wrapNil msg

structure owner where
  Login : String
  deriving DecidableEq

structure repository where
  Archived : Bool
  Name : String
  Owner : owner
  deriving DecidableEq

/-- An outgoing request: method, absolute URL, headers in the order they were added. -/
structure Request where
  method : String
  url : String
  header : List (String × String)
  deriving DecidableEq

/-- Result of `json.Decoder.Decode` of a response body into a repository slice. -/
inductive Decoded where
  | ok (repos : List repository)
  | fail (err : GoError)
  deriving DecidableEq

structure Response where
  StatusCode : Nat
  Status : String
  Body : Decoded
  deriving DecidableEq

/-- Requests handed to the client so far, oldest first. -/
abbrev Trace := List Request

/-- Stands for `*http.Client`: the answer to a request given the earlier ones. -/
abbrev Client := Trace → Request → Option Response

/-- Executor provides runtime configuration and facilities. -/
structure Executor where
  client : Client
  token : String
  http : Bool
  dry : Bool

/-- How a call ends: it returns, it panics, or the listing loop is still running
when the fuel is used up. -/
inductive Outcome (α : Type) where
  | ret (a : α)
  | panic
  | hang
  deriving DecidableEq

/-- Sequencing: continue with the returned value, stop on a panic or on `hang`. -/
def andThen {α β : Type} (r : Outcome α × Trace)
    (k : α → Trace → Outcome β × Trace) : Outcome β × Trace :=
  match r with
  | (.ret a, t) => k a t
  | (.panic, t) => (.panic, t)
  | (.hang, t) => (.hang, t)

def isMutating (r : Request) : Bool :=
  r.method == "PUT" || r.method == "DELETE"

/-- The request `makeRequest` builds. -/
def buildRequest (ex : Executor) (method url : String) (acceptHeaders : List String) :
    Request :=
  let protocol := if ex.http then "http" else "https"
  ⟨method, protocol ++ "://api.github.com/" ++ url,
    ("Authorization", "token " ++ ex.token) :: acceptHeaders.map (fun h => ("Accept", h))⟩

/-- The method `Executor.makeRequest`. The error of `client.Do` is dropped and the response
is dereferenced at once, so a missing response is a panic. -/
def makeRequest (urlErr : String → Option GoError) (ex : Executor) (method url : String)
    (acceptHeaders : List String) (t : Trace) :
    Outcome (Option Response × Option GoError) × Trace :=
  let req := buildRequest ex method url acceptHeaders
  match urlErr req.url with
  | some err => (.ret (none, some err), t)
  | none =>
    match ex.client t req with
    | none => (.panic, t ++ [req])
    | some res =>
      if res.StatusCode ≥ 400 then
        (.ret (some res, some (.new res.Status)), t ++ [req])
      else
        (.ret (some res, none), t ++ [req])

def alertsPath (repo : repository) : String :=
  "repos/" ++ repo.Owner.Login ++ "/" ++ repo.Name ++ "/vulnerability-alerts"

def fixesPath (repo : repository) : String :=
  "repos/" ++ repo.Owner.Login ++ "/" ++ repo.Name ++ "/automated-security-fixes"

def dorianPreview : String := "application/vnd.github.dorian-preview+json"

def londonPreview : String := "application/vnd.github.london-preview+json"

/-- The method `Executor.checkEnabled`. The response is dereferenced without looking at the
error, so a nil response (request not built) is a panic. -/
def checkEnabled (urlErr : String → Option GoError) (ex : Executor) (repo : repository)
    (t : Trace) : Outcome (Bool × Option GoError) × Trace :=
  andThen (makeRequest urlErr ex "GET" (alertsPath repo) [dorianPreview] t)
    fun r t1 =>
      match r with
      | (none, _) => (.panic, t1)
      | (some res, err) =>
        if res.StatusCode = 404 then (.ret (false, none), t1)
        else if res.StatusCode = 204 then (.ret (true, none), t1)
        else
          (.ret (false, some (errorf
            ("failed to check vulnerability alerts config for repo " ++ repo.Name ++ ": ")
            err)), t1)

/-- Body of the loop of `updateVulnerabilityAlerts` and the loop itself: the
repositories left, the running count, the trace. -/
def alertsLoop (urlErr : String → Option GoError) (ex : Executor) (action method : String) :
    List repository → Nat → Trace → Outcome (Nat × Option GoError) × Trace
  | [], numUpdated, t => (.ret (numUpdated, none), t)
  | repo :: rest, numUpdated, t =>
    if repo.Archived then
      alertsLoop urlErr ex action method rest numUpdated t
    else
      andThen (checkEnabled urlErr ex repo t) fun r t1 =>
        let isEnabled := r.1
        let performAction :=
          (!isEnabled && (action == "enable")) || (isEnabled && (action == "disable"))
        if !performAction then
          alertsLoop urlErr ex action method rest numUpdated t1
        else if ex.dry then
          alertsLoop urlErr ex action method rest numUpdated t1
        else
          andThen (makeRequest urlErr ex method (alertsPath repo) [dorianPreview] t1)
            fun r2 t2 =>
              match r2.2 with
              | some err =>
                (.ret (numUpdated, some (errorf
                  ("failed to update vulnerability alerts for repo " ++ repo.Name ++ ": ")
                  (some err))), t2)
              | none => alertsLoop urlErr ex action method rest (numUpdated + 1) t2

/-- The method `Executor.updateVulnerabilityAlerts`: the method is chosen from the
action, any other action is an error before the loop. -/
def updateVulnerabilityAlerts (urlErr : String → Option GoError) (ex : Executor)
    (action : String) (repositories : List repository) (t : Trace) :
    Outcome (Nat × Option GoError) × Trace :=
  if action = "enable" then alertsLoop urlErr ex action "PUT" repositories 0 t
  else if action = "disable" then alertsLoop urlErr ex action "DELETE" repositories 0 t
  else (.ret (0, some (.new "action must be of value 'enable' or 'disable'")), t)

/-- Loop of `updateSecurityFixes`. -/
def fixesLoop (urlErr : String → Option GoError) (ex : Executor) (method : String) :
    List repository → Nat → Trace → Outcome (Nat × Option GoError) × Trace
  | [], numUpdated, t => (.ret (numUpdated, none), t)
  | repo :: rest, numUpdated, t =>
    if ex.dry then
      fixesLoop urlErr ex method rest numUpdated t
    else
      andThen (makeRequest urlErr ex method (fixesPath repo) [londonPreview] t)
        fun r t1 =>
          match r.2 with
          | some err =>
            (.ret (numUpdated, some (errorf
              ("failed to update automated security fixes alerts for repo " ++
                repo.Name ++ ": ")
              (some err))), t1)
          | none => fixesLoop urlErr ex method rest (numUpdated + 1) t1

/-- The method `Executor.updateSecurityFixes`. -/
def updateSecurityFixes (urlErr : String → Option GoError) (ex : Executor)
    (fixes : Bool) (repositories : List repository) (t : Trace) :
    Outcome (Nat × Option GoError) × Trace :=
  fixesLoop urlErr ex (if fixes then "PUT" else "DELETE") repositories 0 t

def listPath (org : String) (page : Nat) : String :=
  "orgs/" ++ org ++ "/repos?type=all&sort=updated&direction=asc&per_page=100&page=" ++
    toString page

/-- Loop of `listRepositories`, one unit of fuel per page requested. The page
counter cannot wrap before the accumulated slice exhausts memory, so it is a `Nat`. -/
def listLoop (urlErr : String → Option GoError) (ex : Executor) (org : String) :
    Nat → Nat → List repository → Trace →
      Outcome (List repository × Option GoError) × Trace
  | 0, _, _, t => (.hang, t)
  | fuel + 1, page, repositories, t =>
    andThen (makeRequest urlErr ex "GET" (listPath org page) [] t) fun r t1 =>
      match r with
      | (_, some err) =>
        (.ret (repositories, some (errorf "failed to get repositories: " (some err))), t1)
      | (none, none) => (.panic, t1)
      | (some res, none) =>
        match res.Body with
        | .fail err =>
          (.ret (repositories, some (errorf "failed to parse repository: " (some err))), t1)
        | .ok repos =>
          if repos.length = 0 then (.ret (repositories ++ repos, none), t1)
          else listLoop urlErr ex org fuel (page + 1) (repositories ++ repos) t1

/-- The method `Executor.listRepositories`. -/
def listRepositories (urlErr : String → Option GoError) (ex : Executor) (fuel : Nat)
    (org : String) (t : Trace) : Outcome (List repository × Option GoError) × Trace :=
  listLoop urlErr ex org fuel 1 [] t

/-- The struct `getConfig` returns. -/
structure Config where
  token : String
  org : String
  action : String
  fixes : Bool
  dry : Bool
  deriving DecidableEq

/-- Go's `strconv.ParseBool`; `none` is its syntax error. -/
def parseBool (str : String) : Option Bool :=
  if str = "1" ∨ str = "t" ∨ str = "T" ∨ str = "true" ∨ str = "TRUE" ∨ str = "True" then
    some true
  else if str = "0" ∨ str = "f" ∨ str = "F" ∨ str = "false" ∨ str = "FALSE" ∨
      str = "False" then
    some false
  else none

/-- The function `getConfig`, reading the environment through `getenv` (the empty
string for an unset variable). All fields start at their zero value. -/
def getConfig (getenv : String → String) : Config :=
  let token := ["GITHUB_VUL_TOKEN", "GITHUB_TOKEN"].foldl
    (fun token s => if getenv s ≠ "" then getenv s else token) ""
  let org := if "" = "" then getenv "GITHUB_VUL_ORG" else ""
  let action := if "" = "" then getenv "GITHUB_VUL_ACTION" else ""
  let envDry := getenv "GITHUB_VUL_DRY"
  let dry :=
    if envDry ≠ "" then
      match parseBool envDry with
      | some r => r
      | none => false
    else false
  let envFixes := getenv "GITHUB_VUL_FIXES"
  let fixes :=
    if envFixes ≠ "" then
      match parseBool envFixes with
      | some r => r
      | none => false
    else false
  ⟨token, org, action, fixes, dry⟩

/-- The function `Run`: finds all org repos and ensures vulnerability alerts are turned on. -/
def Run (urlErr : String → Option GoError) (fuel : Nat) (org action : String)
    (fixes : Bool) (repo : String) (ex : Executor) (t : Trace) :
    Outcome (Option GoError) × Trace :=
  if org = "" then (.ret (some (.new "missing org")), t)
  else if action = "" then (.ret (some (.new "missing action")), t)
  else
    let resolved : Outcome (List repository × Option GoError) × Trace :=
      if repo = "" then listRepositories urlErr ex fuel org t
      else (.ret ([⟨false, repo, ⟨org⟩⟩], none), t)
    andThen resolved fun r t1 =>
      match r.2 with
      | some err => (.ret (some err), t1)
      | none =>
        andThen (updateVulnerabilityAlerts urlErr ex action r.1 t1) fun a t2 =>
          match a.2 with
          | some err => (.ret (some err), t2)
          | none =>
            andThen (updateSecurityFixes urlErr ex fixes r.1 t2) fun f t3 =>
              match f.2 with
              | some err => (.ret (some err), t3)
              | none => (.ret none, t3)

/-- A parsed command line: for each flag, the value given, `none` when the flag
was not passed. -/
structure Flags where
  action : Option String
  dry : Option Bool
  fixes : Option Bool
  org : Option String
  repo : Option String
  token : Option String

/-- Go's `flag.NFlag`: the number of flags that were set. -/
def NFlag (f : Flags) : Nat :=
  f.action.toList.length + f.dry.toList.length + f.fixes.toList.length +
    f.org.toList.length + f.repo.toList.length + f.token.toList.length

/-- Values of the six flag variables of `main` after `flag.Parse`: the value
passed, else the default the flag was declared with. -/
structure FlagValues where
  action : String
  dry : Bool
  fixes : Bool
  org : String
  repo : String
  token : String
  deriving DecidableEq

def flagValues (getenv : String → String) (f : Flags) : FlagValues :=
  let config := getConfig getenv
  ⟨f.action.getD config.action, f.dry.getD config.dry, f.fixes.getD config.fixes,
    f.org.getD config.org, f.repo.getD config.action, f.token.getD config.token⟩

/-- The function `NewExecutor`, with the network the fresh `http.Client` talks to. -/
def NewExecutor (net : Client) (token : String) (dry : Bool) : Executor :=
  ⟨net, token, false, dry⟩

/-- How the process ends after `main`. -/
inductive Exit where
  | usage
  | crash (err : GoError)
  | ok
  deriving DecidableEq

/-- The function `main`. -/
def main (urlErr : String → Option GoError) (net : Client) (fuel : Nat)
    (getenv : String → String) (f : Flags) (t : Trace) : Outcome Exit × Trace :=
  let v := flagValues getenv f
  if NFlag f = 0 then (.ret .usage, t)
  else
    let ex := NewExecutor net v.token v.dry
    andThen (Run urlErr fuel v.org v.action v.fixes v.repo ex t) fun err t1 =>
      match err with
      | some e => (.ret (.crash e), t1)
      | none => (.ret .ok, t1)

/-! ## Requests and predicates used in the statements -/

/-- Method and URL of each request of a trace. -/
def summary (t : Trace) : List (String × String) :=
  t.map fun r => (r.method, r.url)

/-- The state-check request for a repository. -/
def checkRequest (ex : Executor) (repo : repository) : Request :=
  buildRequest ex "GET" (alertsPath repo) [dorianPreview]

/-- The request is one `alertsLoop` may send for the list: the state check of a
repository of the list that is not archived or, outside dry-run, the call with
`method` on its alerts endpoint. -/
def AlertsRequest (ex : Executor) (method : String) (repos : List repository)
    (q : Request) : Prop :=
  ∃ r ∈ repos, r.Archived = false ∧
    (q = checkRequest ex r ∨
      (ex.dry = false ∧ q = buildRequest ex method (alertsPath r) [dorianPreview]))

/-- The mutating request for a repository: PUT for `enable`, DELETE otherwise. -/
def mutateRequest (ex : Executor) (action : String) (repo : repository) : Request :=
  buildRequest ex (if action = "enable" then "PUT" else "DELETE") (alertsPath repo)
    [dorianPreview]

/-- The method `updateVulnerabilityAlerts` selects for a valid action. -/
def methodOf (action : String) : String :=
  if action = "enable" then "PUT" else "DELETE"

/-- The request `listRepositories` sends for a page. -/
def listRequest (ex : Executor) (org : String) (page : Nat) : Request :=
  buildRequest ex "GET" (listPath org page) []

/-- The error `checkEnabled` returns on a status other than 404 and 204. -/
def checkError (repo : repository) (res : Response) : GoError :=
  errorf ("failed to check vulnerability alerts config for repo " ++ repo.Name ++ ": ")
    (if res.StatusCode ≥ 400 then some (.new res.Status) else none)

/-! ## Concrete executors and servers used to evaluate the code -/

/-- Every URL parses. -/
def noErr : String → Option GoError := fun _ => none

/-- A client that never obtains a response (connection refused). -/
def downClient : Client := fun _ _ => none

def exDown : Executor := ⟨downClient, "token", false, false⟩

def repoOrg : repository := ⟨false, "repo", ⟨"org"⟩⟩

def noContent : Response := ⟨204, "204 No Content", .fail (.new "EOF")⟩

def notFound : Response := ⟨404, "404 Not Found", .fail (.new "EOF")⟩

def serverError : Response := ⟨500, "500 Internal Server Error", .fail (.new "EOF")⟩

/-- A server on which alerts are enabled everywhere, except that the state check
of `org/repo2` fails with status 500. Mutating calls succeed. -/
def flakyClient : Client := fun _ req =>
  if req.method = "GET" ∧ req.url = "https://api.github.com/repos/org/repo2/vulnerability-alerts"
  then some serverError
  else some noContent

def exFlaky : Executor := ⟨flakyClient, "token", false, false⟩

def threeRepos : List repository :=
  [⟨false, "repo1", ⟨"org"⟩⟩, ⟨false, "repo2", ⟨"org"⟩⟩, ⟨false, "repo3", ⟨"org"⟩⟩]

/-- An environment with both token variables set. -/
def envBothTokens : String → String := fun s =>
  if s = "GITHUB_VUL_TOKEN" then "specific"
  else if s = "GITHUB_TOKEN" then "generic"
  else ""

/-- An environment giving the org and the action, as the flag help suggests. -/
def envAction : String → String := fun s =>
  if s = "GITHUB_VUL_ORG" then "org"
  else if s = "GITHUB_VUL_ACTION" then "enable"
  else ""

/-- The command line `-dry`: no `-repo`. -/
def flagsDryOnly : Flags := ⟨none, some true, none, none, none, none⟩

/-- A server on which every repository has alerts enabled. -/
def enabledClient : Client := fun _ _ => some noContent

/-- A dry-run executor facing a server on which alerts are enabled everywhere. -/
def exDry : Executor := ⟨enabledClient, "token", false, true⟩

/-- A dry-run executor whose client never obtains a response. -/
def exDownDry : Executor := ⟨downClient, "token", false, true⟩

/-- A repository name that is not a valid URL path segment. -/
def repoBadEscape : repository := ⟨false, "%zz", ⟨"org"⟩⟩

/-- URL parsing that rejects the alerts URL of `repoBadEscape`, as `url.Parse`
does for an invalid percent escape, and accepts every other URL. -/
def rejectBadEscape : String → Option GoError := fun u =>
  if u = "https://api.github.com/repos/org/%zz/vulnerability-alerts"
  then some (.new "invalid URL escape")
  else none

/-- An executor that mutates, facing a server on which alerts are enabled. -/
def exLive : Executor := ⟨enabledClient, "token", false, false⟩

def repoA : repository := ⟨false, "repo1", ⟨"org"⟩⟩

def repoB : repository := ⟨false, "repo2", ⟨"org"⟩⟩

/-- A page of one hundred repositories. -/
def fullPage (name : String) : List repository :=
  List.replicate 100 ⟨false, name, ⟨"org"⟩⟩

/-- A server holding two full pages of repositories of the org `org`. -/
def pagedClient : Client := fun _ req =>
  if req.url =
      "http://api.github.com/orgs/org/repos?type=all&sort=updated&direction=asc&per_page=100&page=1"
  then some ⟨200, "200 OK", .ok (fullPage "a")⟩
  else if req.url =
      "http://api.github.com/orgs/org/repos?type=all&sort=updated&direction=asc&per_page=100&page=2"
  then some ⟨200, "200 OK", .ok (fullPage "b")⟩
  else some ⟨200, "200 OK", .ok []⟩

def exPaged : Executor := ⟨pagedClient, "token", true, false⟩

/-- A server holding the two repositories `repo1` and `repo2` of the org `org`. -/
def twoRepoClient : Client := fun _ req =>
  if req.url =
      "https://api.github.com/orgs/org/repos?type=all&sort=updated&direction=asc&per_page=100&page=1"
  then some ⟨200, "200 OK", .ok [repoA, repoB]⟩
  else some ⟨200, "200 OK", .ok []⟩

def exTwo : Executor := ⟨twoRepoClient, "token", false, false⟩

/-! ## Basic facts -/

@[simp] theorem andThen_ret {α β : Type} (a : α) (t : Trace)
    (k : α → Trace → Outcome β × Trace) : andThen (.ret a, t) k = k a t := rfl

@[simp] theorem andThen_panic {α β : Type} (t : Trace)
    (k : α → Trace → Outcome β × Trace) : andThen (Outcome.panic, t) k = (.panic, t) := rfl

@[simp] theorem andThen_hang {α β : Type} (t : Trace)
    (k : α → Trace → Outcome β × Trace) : andThen (Outcome.hang, t) k = (.hang, t) := rfl

theorem makeRequest_down (urlErr : String → Option GoError) (ex : Executor)
    (method url : String) (hs : List String) (t : Trace)
    (hurl : urlErr (buildRequest ex method url hs).url = none)
    (hres : ex.client t (buildRequest ex method url hs) = none) :
    makeRequest urlErr ex method url hs t = (.panic, t ++ [buildRequest ex method url hs]) := by
  simp [makeRequest, hurl, hres]

theorem makeRequest_answered (urlErr : String → Option GoError) (ex : Executor)
    (method url : String) (hs : List String) (t : Trace) (res : Response)
    (hurl : urlErr (buildRequest ex method url hs).url = none)
    (hres : ex.client t (buildRequest ex method url hs) = some res) :
    makeRequest urlErr ex method url hs t =
      (.ret (some res, if res.StatusCode ≥ 400 then some (.new res.Status) else none),
        t ++ [buildRequest ex method url hs]) := by
  simp only [makeRequest, hurl, hres]
  split <;> rfl

/-- A call of `makeRequest` sends at most the one request it builds, and never
returns a nil response with a nil error. -/
theorem makeRequest_cases (urlErr : String → Option GoError) (ex : Executor)
    (method url : String) (hs : List String) (t : Trace) :
    (∃ err, makeRequest urlErr ex method url hs t = (.ret (none, some err), t)) ∨
    makeRequest urlErr ex method url hs t = (.panic, t ++ [buildRequest ex method url hs]) ∨
    (∃ res err, makeRequest urlErr ex method url hs t =
      (.ret (some res, err), t ++ [buildRequest ex method url hs])) := by
  cases h1 : urlErr (buildRequest ex method url hs).url with
  | some e => exact Or.inl ⟨e, by simp [makeRequest, h1]⟩
  | none =>
    cases h2 : ex.client t (buildRequest ex method url hs) with
    | none => exact Or.inr (Or.inl (makeRequest_down urlErr ex method url hs t h1 h2))
    | some res =>
      exact Or.inr (Or.inr ⟨res, _, makeRequest_answered urlErr ex method url hs t res h1 h2⟩)

/-- A state check either panics or returns, having sent at most its GET request. -/
theorem checkEnabled_cases (urlErr : String → Option GoError) (ex : Executor)
    (repo : repository) (t : Trace) :
    checkEnabled urlErr ex repo t = (.panic, t) ∨
    checkEnabled urlErr ex repo t =
      (.panic, t ++ [checkRequest ex repo]) ∨
    (∃ r, checkEnabled urlErr ex repo t =
      (.ret r, t ++ [checkRequest ex repo])) := by
  unfold checkEnabled
  rcases makeRequest_cases urlErr ex "GET" (alertsPath repo) [dorianPreview] t with
    ⟨e, h⟩ | h | ⟨res, e, h⟩
  · left; rw [h]; rfl
  · right; left; rw [h]; rfl
  · right; right
    rw [h]
    simp only [andThen_ret]
    split_ifs
    · exact ⟨_, rfl⟩
    · exact ⟨_, rfl⟩
    · exact ⟨_, rfl⟩

/-! ## The loop of `updateVulnerabilityAlerts` -/

theorem AlertsRequest.tail {ex : Executor} {method : String} {repo : repository}
    {rest : List repository} {q : Request} (h : AlertsRequest ex method rest q) :
    AlertsRequest ex method (repo :: rest) q := by
  obtain ⟨r, hr, h⟩ := h
  exact ⟨r, List.mem_cons_of_mem _ hr, h⟩

theorem alertsLoop_archived (urlErr : String → Option GoError) (ex : Executor)
    (action method : String) (repo : repository) (rest : List repository) (n : Nat)
    (t : Trace) (h : repo.Archived = true) :
    alertsLoop urlErr ex action method (repo :: rest) n t =
      alertsLoop urlErr ex action method rest n t := by
  rw [alertsLoop]; simp [h]

theorem alertsLoop_checked (urlErr : String → Option GoError) (ex : Executor)
    (action method : String) (repo : repository) (rest : List repository) (n : Nat)
    (t t1 : Trace) (r : Bool × Option GoError) (h : repo.Archived = false)
    (hc : checkEnabled urlErr ex repo t = (.ret r, t1)) :
    alertsLoop urlErr ex action method (repo :: rest) n t =
      if !((!r.1 && (action == "enable")) || (r.1 && (action == "disable"))) then
        alertsLoop urlErr ex action method rest n t1
      else if ex.dry then alertsLoop urlErr ex action method rest n t1
      else
        andThen (makeRequest urlErr ex method (alertsPath repo) [dorianPreview] t1)
          fun r2 t2 =>
            match r2.2 with
            | some err =>
              (.ret (n, some (errorf
                ("failed to update vulnerability alerts for repo " ++ repo.Name ++ ": ")
                (some err))), t2)
            | none => alertsLoop urlErr ex action method rest (n + 1) t2 := by
  rw [alertsLoop, hc]
  simp only [h, andThen_ret, Bool.false_eq_true, if_false]

theorem alertsLoop_check_panics (urlErr : String → Option GoError) (ex : Executor)
    (action method : String) (repo : repository) (rest : List repository) (n : Nat)
    (t t1 : Trace) (h : repo.Archived = false)
    (hc : checkEnabled urlErr ex repo t = (.panic, t1)) :
    alertsLoop urlErr ex action method (repo :: rest) n t = (.panic, t1) := by
  rw [alertsLoop]; simp [h, hc]

/-- Every request the loop sends is a state check or a mutating call for a
repository of the list that is not archived. -/
theorem alertsLoop_requests (urlErr : String → Option GoError) (ex : Executor)
    (action method : String) :
    ∀ (repos : List repository) (n : Nat) (t : Trace),
      ∃ new, (alertsLoop urlErr ex action method repos n t).2 = t ++ new ∧
        ∀ q ∈ new, AlertsRequest ex method repos q
  | [], n, t => ⟨[], by simp [alertsLoop], by simp⟩
  | repo :: rest, n, t => by
    have own : AlertsRequest ex method (repo :: rest) (checkRequest ex repo) →
        ∀ (m : Nat), ∃ new,
          (alertsLoop urlErr ex action method rest m (t ++ [checkRequest ex repo])).2 =
            t ++ new ∧ ∀ q ∈ new, AlertsRequest ex method (repo :: rest) q := by
      intro hq m
      obtain ⟨new, h1, h2⟩ := alertsLoop_requests urlErr ex action method rest m
        (t ++ [checkRequest ex repo])
      refine ⟨checkRequest ex repo :: new, by simp [h1], ?_⟩
      intro q hq'
      rcases List.mem_cons.mp hq' with rfl | hq'
      · exact hq
      · exact (h2 q hq').tail
    by_cases ha : repo.Archived = true
    · rw [alertsLoop_archived _ _ _ _ _ _ _ _ ha]
      obtain ⟨new, h1, h2⟩ := alertsLoop_requests urlErr ex action method rest n t
      exact ⟨new, h1, fun q hq => (h2 q hq).tail⟩
    · have ha : repo.Archived = false := by simpa using ha
      have hchk : AlertsRequest ex method (repo :: rest) (checkRequest ex repo) :=
        ⟨repo, List.mem_cons_self _ _, ha, Or.inl rfl⟩
      rcases checkEnabled_cases urlErr ex repo t with hc | hc | ⟨r, hc⟩
      · rw [alertsLoop_check_panics _ _ _ _ _ _ _ _ _ ha hc]
        exact ⟨[], by simp, by simp⟩
      · rw [alertsLoop_check_panics _ _ _ _ _ _ _ _ _ ha hc]
        refine ⟨[checkRequest ex repo], rfl, ?_⟩
        intro q hq
        rw [List.mem_singleton.mp hq]
        exact hchk
      · rw [alertsLoop_checked _ _ _ _ _ _ _ _ _ _ ha hc]
        split_ifs with hp hd
        · exact own hchk n
        · exact own hchk n
        · have hd : ex.dry = false := by simpa using hd
          have hmut : AlertsRequest ex method (repo :: rest)
              (buildRequest ex method (alertsPath repo) [dorianPreview]) :=
            ⟨repo, List.mem_cons_self _ _, ha, Or.inr ⟨hd, rfl⟩⟩
          rcases makeRequest_cases urlErr ex method (alertsPath repo) [dorianPreview]
            (t ++ [checkRequest ex repo]) with ⟨e, hm⟩ | hm | ⟨res, e, hm⟩
          · rw [hm]
            refine ⟨[checkRequest ex repo], rfl, ?_⟩
            intro q hq
            rw [List.mem_singleton.mp hq]
            exact hchk
          · rw [hm]
            refine ⟨[checkRequest ex repo,
              buildRequest ex method (alertsPath repo) [dorianPreview]], by simp, ?_⟩
            intro q hq
            simp only [List.mem_cons, List.mem_singleton, List.not_mem_nil, or_false] at hq
            rcases hq with rfl | rfl
            · exact hchk
            · exact hmut
          · rw [hm]
            simp only [andThen_ret]
            cases e with
            | some err =>
              refine ⟨[checkRequest ex repo,
                buildRequest ex method (alertsPath repo) [dorianPreview]], by simp, ?_⟩
              intro q hq
              simp only [List.mem_cons, List.mem_singleton, List.not_mem_nil, or_false] at hq
              rcases hq with rfl | rfl
              · exact hchk
              · exact hmut
            | none =>
              obtain ⟨new, h1, h2⟩ := alertsLoop_requests urlErr ex action method rest (n + 1)
                (t ++ [checkRequest ex repo] ++
                  [buildRequest ex method (alertsPath repo) [dorianPreview]])
              refine ⟨checkRequest ex repo ::
                buildRequest ex method (alertsPath repo) [dorianPreview] :: new,
                by rw [h1]; simp, ?_⟩
              intro q hq
              simp only [List.mem_cons] at hq
              rcases hq with rfl | rfl | hq
              · exact hchk
              · exact hmut
              · exact (h2 q hq).tail

/-- Archived repositories can be dropped from the list without changing what the
loop does. -/
theorem alertsLoop_filter (urlErr : String → Option GoError) (ex : Executor)
    (action method : String) :
    ∀ (repos : List repository) (n : Nat) (t : Trace),
      alertsLoop urlErr ex action method repos n t =
        alertsLoop urlErr ex action method (repos.filter fun r => !r.Archived) n t
  | [], n, t => by simp
  | repo :: rest, n, t => by
    have ih := alertsLoop_filter urlErr ex action method rest
    by_cases ha : repo.Archived = true
    · rw [alertsLoop_archived _ _ _ _ _ _ _ _ ha]
      have hf : ((repo :: rest).filter fun r => !r.Archived) =
          rest.filter fun r => !r.Archived := by simp [ha]
      rw [hf]
      exact ih n t
    · have ha : repo.Archived = false := by simpa using ha
      have hf : ((repo :: rest).filter fun r => !r.Archived) =
          repo :: rest.filter fun r => !r.Archived := by simp [ha]
      rw [hf]
      rcases checkEnabled_cases urlErr ex repo t with hc | hc | ⟨r, hc⟩
      · rw [alertsLoop_check_panics _ _ _ _ _ _ _ _ _ ha hc,
          alertsLoop_check_panics _ _ _ _ _ _ _ _ _ ha hc]
      · rw [alertsLoop_check_panics _ _ _ _ _ _ _ _ _ ha hc,
          alertsLoop_check_panics _ _ _ _ _ _ _ _ _ ha hc]
      · rw [alertsLoop_checked _ _ _ _ _ _ _ _ _ _ ha hc,
          alertsLoop_checked _ _ _ _ _ _ _ _ _ _ ha hc]
        split_ifs
        · exact ih n _
        · exact ih n _
        · congr 1
          funext r2 t2
          rcases r2 with ⟨a, _ | e⟩
          · exact ih (n + 1) t2
          · rfl

/-- The loop never hangs, and the count it returns lies between the count it
started from and that count plus the length of the list. -/
theorem alertsLoop_count (urlErr : String → Option GoError) (ex : Executor)
    (action method : String) :
    ∀ (repos : List repository) (n : Nat) (t : Trace),
      (alertsLoop urlErr ex action method repos n t).1 = .panic ∨
        ∃ m err, (alertsLoop urlErr ex action method repos n t).1 = .ret (m, err) ∧
          n ≤ m ∧ m ≤ n + repos.length
  | [], n, t => Or.inr ⟨n, none, by simp [alertsLoop]⟩
  | repo :: rest, n, t => by
    have ih : ∀ (k : Nat) (t1 : Trace), n ≤ k → k ≤ n + 1 →
        (alertsLoop urlErr ex action method rest k t1).1 = .panic ∨
          ∃ m err, (alertsLoop urlErr ex action method rest k t1).1 = .ret (m, err) ∧
            n ≤ m ∧ m ≤ n + (repo :: rest).length := by
      intro k t1 h1 h2
      rcases alertsLoop_count urlErr ex action method rest k t1 with h | ⟨m, e, h, h3, h4⟩
      · exact Or.inl h
      · exact Or.inr ⟨m, e, h, by omega, by simp only [List.length_cons]; omega⟩
    by_cases ha : repo.Archived = true
    · rw [alertsLoop_archived _ _ _ _ _ _ _ _ ha]
      exact ih n t (le_refl _) (by omega)
    · have ha : repo.Archived = false := by simpa using ha
      rcases checkEnabled_cases urlErr ex repo t with hc | hc | ⟨r, hc⟩
      · rw [alertsLoop_check_panics _ _ _ _ _ _ _ _ _ ha hc]; exact Or.inl rfl
      · rw [alertsLoop_check_panics _ _ _ _ _ _ _ _ _ ha hc]; exact Or.inl rfl
      · rw [alertsLoop_checked _ _ _ _ _ _ _ _ _ _ ha hc]
        split_ifs
        · exact ih n _ (le_refl _) (by omega)
        · exact ih n _ (le_refl _) (by omega)
        · rcases makeRequest_cases urlErr ex method (alertsPath repo) [dorianPreview]
            (t ++ [checkRequest ex repo]) with ⟨e, hm⟩ | hm | ⟨res, e, hm⟩
          · rw [hm]
            exact Or.inr ⟨n, _, rfl, le_refl _, by omega⟩
          · rw [hm]; exact Or.inl rfl
          · rw [hm]
            cases e with
            | some err => exact Or.inr ⟨n, _, rfl, le_refl _, by omega⟩
            | none => exact ih (n + 1) _ (by omega) (le_refl _)

theorem checkEnabled_answered (urlErr : String → Option GoError) (ex : Executor)
    (repo : repository) (t : Trace)
    (hurl : urlErr (checkRequest ex repo).url = none)
    (hres : ex.client t (checkRequest ex repo) ≠ none) :
    ∃ r, checkEnabled urlErr ex repo t = (.ret r, t ++ [checkRequest ex repo]) := by
  obtain ⟨res, hres⟩ := Option.ne_none_iff_exists'.mp hres
  have hm := makeRequest_answered urlErr ex "GET" (alertsPath repo) [dorianPreview] t res
    hurl hres
  unfold checkEnabled
  rw [hm]
  simp only [andThen_ret]
  split_ifs <;> exact ⟨_, rfl⟩

/-- In dry-run the loop returns the count it started from, with a nil error, or
panics; it returns when every state check is built and answered. -/
theorem alertsLoop_dry (urlErr : String → Option GoError) (ex : Executor)
    (action method : String) (hdry : ex.dry = true) :
    ∀ (repos : List repository) (n : Nat) (t : Trace),
      ((alertsLoop urlErr ex action method repos n t).1 = .panic ∨
        (alertsLoop urlErr ex action method repos n t).1 = .ret (n, none)) ∧
      ((∀ r ∈ repos, r.Archived = false →
          urlErr (checkRequest ex r).url = none ∧
            ∀ t1, ex.client t1 (checkRequest ex r) ≠ none) →
        (alertsLoop urlErr ex action method repos n t).1 = .ret (n, none))
  | [], n, t => by simp [alertsLoop]
  | repo :: rest, n, t => by
    have ih := alertsLoop_dry urlErr ex action method hdry rest n
    by_cases ha : repo.Archived = true
    · rw [alertsLoop_archived _ _ _ _ _ _ _ _ ha]
      exact ⟨(ih t).1, fun h => (ih t).2 fun r hr => h r (List.mem_cons_of_mem _ hr)⟩
    · have ha : repo.Archived = false := by simpa using ha
      have step : ∀ (r : Bool × Option GoError) (t1 : Trace),
          checkEnabled urlErr ex repo t = (.ret r, t1) →
          alertsLoop urlErr ex action method (repo :: rest) n t =
            alertsLoop urlErr ex action method rest n t1 := by
        intro r t1 hc
        rw [alertsLoop_checked _ _ _ _ _ _ _ _ _ _ ha hc]
        simp [hdry]
      refine ⟨?_, fun h => ?_⟩
      · rcases checkEnabled_cases urlErr ex repo t with hc | hc | ⟨r, hc⟩
        · rw [alertsLoop_check_panics _ _ _ _ _ _ _ _ _ ha hc]; exact Or.inl rfl
        · rw [alertsLoop_check_panics _ _ _ _ _ _ _ _ _ ha hc]; exact Or.inl rfl
        · rw [step r _ hc]; exact (ih _).1
      · obtain ⟨h1, h2⟩ := h repo (List.mem_cons_self _ _) ha
        obtain ⟨r, hc⟩ := checkEnabled_answered urlErr ex repo t h1 (h2 t)
        rw [step r _ hc]
        exact (ih _).2 fun r hr => h r (List.mem_cons_of_mem _ hr)

/-- In dry-run the loop of `updateSecurityFixes` sends nothing and counts nothing. -/
theorem fixesLoop_dry (urlErr : String → Option GoError) (ex : Executor)
    (method : String) (hdry : ex.dry = true) :
    ∀ (repos : List repository) (n : Nat) (t : Trace),
      fixesLoop urlErr ex method repos n t = (.ret (n, none), t)
  | [], n, t => by simp [fixesLoop]
  | repo :: rest, n, t => by
    rw [fixesLoop]
    simp only [hdry, if_true]
    exact fixesLoop_dry urlErr ex method hdry rest n t

theorem isMutating_checkRequest (ex : Executor) (repo : repository) :
    isMutating (checkRequest ex repo) = false := by
  simp [isMutating, checkRequest, buildRequest]

/-- A call of `updateVulnerabilityAlerts` is the loop started at count 0 with the
method of the action, or the immediate error for any other action. -/
theorem updateVulnerabilityAlerts_cases (urlErr : String → Option GoError) (ex : Executor)
    (action : String) (repos : List repository) (t : Trace) :
    (∃ method, updateVulnerabilityAlerts urlErr ex action repos t =
        alertsLoop urlErr ex action method repos 0 t) ∨
      (action ≠ "enable" ∧ action ≠ "disable" ∧
        updateVulnerabilityAlerts urlErr ex action repos t =
          (.ret (0, some (.new "action must be of value 'enable' or 'disable'")), t)) := by
  unfold updateVulnerabilityAlerts
  split_ifs with h1 h2
  · exact Or.inl ⟨_, rfl⟩
  · exact Or.inl ⟨_, rfl⟩
  · exact Or.inr ⟨h1, h2, rfl⟩

/-! ## Dry-run and archived repositories -/

/-- What holds of the dry-run invariant on the code: with `dry = true`, for every
repository list, action and server, `updateVulnerabilityAlerts` sends no PUT and
no DELETE and either panics or returns count 0; it returns count 0 when each state
check is built and answered; `updateSecurityFixes` sends nothing at all and
returns count 0 with a nil error. -/
theorem dry_run_invariant (urlErr : String → Option GoError) (ex : Executor)
    (hdry : ex.dry = true) (action : String) (fixes : Bool) (repos : List repository)
    (t : Trace) :
    (∃ new, (updateVulnerabilityAlerts urlErr ex action repos t).2 = t ++ new ∧
      ∀ q ∈ new, isMutating q = false) ∧
    ((updateVulnerabilityAlerts urlErr ex action repos t).1 = .panic ∨
      ∃ err, (updateVulnerabilityAlerts urlErr ex action repos t).1 = .ret (0, err)) ∧
    ((∀ r ∈ repos, r.Archived = false →
        urlErr (checkRequest ex r).url = none ∧
          ∀ t1, ex.client t1 (checkRequest ex r) ≠ none) →
      ∃ err, (updateVulnerabilityAlerts urlErr ex action repos t).1 = .ret (0, err)) ∧
    updateSecurityFixes urlErr ex fixes repos t = (.ret (0, none), t) := by
  refine ⟨?_, ?_, ?_, fixesLoop_dry urlErr ex _ hdry repos 0 t⟩
  · rcases updateVulnerabilityAlerts_cases urlErr ex action repos t with
      ⟨m, h⟩ | ⟨_, _, h⟩
    · rw [h]
      obtain ⟨new, h1, h2⟩ := alertsLoop_requests urlErr ex action m repos 0 t
      refine ⟨new, h1, fun q hq => ?_⟩
      obtain ⟨r, _, _, hq | ⟨hd, _⟩⟩ := h2 q hq
      · rw [hq]; exact isMutating_checkRequest ex r
      · rw [hdry] at hd; cases hd
    · rw [h]; exact ⟨[], by simp, by simp⟩
  · rcases updateVulnerabilityAlerts_cases urlErr ex action repos t with
      ⟨m, h⟩ | ⟨_, _, h⟩
    · rw [h]
      rcases (alertsLoop_dry urlErr ex action m hdry repos 0 t).1 with h1 | h1
      · exact Or.inl h1
      · exact Or.inr ⟨none, h1⟩
    · rw [h]; exact Or.inr ⟨_, rfl⟩
  · intro hans
    rcases updateVulnerabilityAlerts_cases urlErr ex action repos t with
      ⟨m, h⟩ | ⟨_, _, h⟩
    · rw [h]
      exact ⟨none, (alertsLoop_dry urlErr ex action m hdry repos 0 t).2 hans⟩
    · rw [h]; exact ⟨_, rfl⟩

/-- Dry-run `disable` over three enabled repositories: three state checks, no
mutating call, count 0. -/
theorem dry_run_invariant_witness :
    ((∃ new, (updateVulnerabilityAlerts noErr exDry "disable" threeRepos []).2 = [] ++ new ∧
        ∀ q ∈ new, isMutating q = false) ∧
      ((updateVulnerabilityAlerts noErr exDry "disable" threeRepos []).1 = .panic ∨
        ∃ err, (updateVulnerabilityAlerts noErr exDry "disable" threeRepos []).1 =
          .ret (0, err)) ∧
      ((∀ r ∈ threeRepos, r.Archived = false →
          noErr (checkRequest exDry r).url = none ∧
            ∀ t1, exDry.client t1 (checkRequest exDry r) ≠ none) →
        ∃ err, (updateVulnerabilityAlerts noErr exDry "disable" threeRepos []).1 =
          .ret (0, err)) ∧
      updateSecurityFixes noErr exDry true threeRepos [] = (.ret (0, none), [])) ∧
    (∀ r ∈ threeRepos, r.Archived = false →
      noErr (checkRequest exDry r).url = none ∧
        ∀ t1, exDry.client t1 (checkRequest exDry r) ≠ none) ∧
    (updateVulnerabilityAlerts noErr exDry "disable" threeRepos []).1 = .ret (0, none) ∧
    summary (updateVulnerabilityAlerts noErr exDry "disable" threeRepos []).2 =
      [("GET", "https://api.github.com/repos/org/repo1/vulnerability-alerts"),
       ("GET", "https://api.github.com/repos/org/repo2/vulnerability-alerts"),
       ("GET", "https://api.github.com/repos/org/repo3/vulnerability-alerts")] :=
  ⟨dry_run_invariant noErr exDry rfl "disable" true threeRepos [],
    fun _ _ _ => ⟨rfl, fun _ => by simp [exDry, enabledClient]⟩, by decide, by decide⟩

/-- C1: in dry-run `updateVulnerabilityAlerts` still runs the state check before
it looks at the dry flag, and the state check dereferences a nil response. With a
client that obtains no response, and with a repository name whose URL does not
parse, the dry-run call panics instead of returning count 0, for `enable` and for
`disable`; no PUT or DELETE is sent. `updateSecurityFixes` returns count 0. -/
theorem dry_run_panics_without_response :
    exDownDry.dry = true ∧
      updateVulnerabilityAlerts noErr exDownDry "enable" [repoOrg] [] =
        (.panic, [checkRequest exDownDry repoOrg]) ∧
      updateVulnerabilityAlerts noErr exDownDry "disable" [repoOrg] [] =
        (.panic, [checkRequest exDownDry repoOrg]) ∧
      isMutating (checkRequest exDownDry repoOrg) = false ∧
      updateVulnerabilityAlerts rejectBadEscape exDry "enable" [repoBadEscape] [] =
        (.panic, []) ∧
      updateSecurityFixes noErr exDownDry true [repoOrg] [] = (.ret (0, none), []) := by
  decide

/-- C4: for every action and repository list, `updateVulnerabilityAlerts` behaves
exactly as on the list with the archived repositories removed (same requests, same
count, same error); every request it sends is addressed to the alerts endpoint of
a repository of the list whose archived flag is false; and the count it returns is
at most the number of repositories that are not archived. -/
theorem archived_skip (urlErr : String → Option GoError) (ex : Executor)
    (action : String) (repos : List repository) (t : Trace) :
    updateVulnerabilityAlerts urlErr ex action repos t =
      updateVulnerabilityAlerts urlErr ex action (repos.filter fun r => !r.Archived) t ∧
    (∃ new, (updateVulnerabilityAlerts urlErr ex action repos t).2 = t ++ new ∧
      ∀ q ∈ new, ∃ r ∈ repos, r.Archived = false ∧
        ∃ m, q = buildRequest ex m (alertsPath r) [dorianPreview]) ∧
    (∀ n err, (updateVulnerabilityAlerts urlErr ex action repos t).1 = .ret (n, err) →
      n ≤ (repos.filter fun r => !r.Archived).length) := by
  have hf : updateVulnerabilityAlerts urlErr ex action repos t =
      updateVulnerabilityAlerts urlErr ex action (repos.filter fun r => !r.Archived) t := by
    unfold updateVulnerabilityAlerts
    split_ifs
    · exact alertsLoop_filter urlErr ex action _ repos 0 t
    · exact alertsLoop_filter urlErr ex action _ repos 0 t
    · rfl
  refine ⟨hf, ?_, ?_⟩
  · rcases updateVulnerabilityAlerts_cases urlErr ex action repos t with
      ⟨m, h⟩ | ⟨_, _, h⟩
    · rw [h]
      obtain ⟨new, h1, h2⟩ := alertsLoop_requests urlErr ex action m repos 0 t
      refine ⟨new, h1, fun q hq => ?_⟩
      obtain ⟨r, hr, ha, hq | ⟨_, hq⟩⟩ := h2 q hq
      · exact ⟨r, hr, ha, "GET", hq⟩
      · exact ⟨r, hr, ha, m, hq⟩
    · rw [h]; exact ⟨[], by simp, by simp⟩
  · intro n err hn
    rw [hf] at hn
    rcases updateVulnerabilityAlerts_cases urlErr ex action
      (repos.filter fun r => !r.Archived) t with ⟨m, h⟩ | ⟨_, _, h⟩
    · rw [h] at hn
      rcases alertsLoop_count urlErr ex action m (repos.filter fun r => !r.Archived) 0 t with
        hp | ⟨k, e, hk, _, hle⟩
      · rw [hp] at hn; cases hn
      · rw [hk] at hn
        cases hn
        omega
    · rw [h] at hn
      cases hn
      exact Nat.zero_le _

/-! ## Reaching a repository in the middle of the list -/

/-- When the loop over a first part of the list ends normally, the loop over the
whole list goes on with the rest from the count and trace reached. -/
theorem alertsLoop_append (urlErr : String → Option GoError) (ex : Executor)
    (action method : String) (post : List repository) :
    ∀ (pre : List repository) (n : Nat) (t : Trace) (m : Nat) (t1 : Trace),
      alertsLoop urlErr ex action method pre n t = (.ret (m, none), t1) →
      alertsLoop urlErr ex action method (pre ++ post) n t =
        alertsLoop urlErr ex action method post m t1
  | [], n, t, m, t1, h => by
    simp only [alertsLoop, Prod.mk.injEq, Outcome.ret.injEq, and_true] at h
    obtain ⟨rfl, rfl⟩ := h
    rfl
  | repo :: rest, n, t, m, t1, h => by
    have ih := alertsLoop_append urlErr ex action method post rest
    rw [List.cons_append]
    by_cases ha : repo.Archived = true
    · rw [alertsLoop_archived _ _ _ _ _ _ _ _ ha] at h ⊢
      exact ih n t m t1 h
    · have ha : repo.Archived = false := by simpa using ha
      rcases checkEnabled_cases urlErr ex repo t with hc | hc | ⟨r, hc⟩
      · rw [alertsLoop_check_panics _ _ _ _ _ _ _ _ _ ha hc] at h; cases h
      · rw [alertsLoop_check_panics _ _ _ _ _ _ _ _ _ ha hc] at h; cases h
      · rw [alertsLoop_checked _ _ _ _ _ _ _ _ _ _ ha hc] at h ⊢
        split_ifs at h ⊢
        · exact ih n _ m t1 h
        · exact ih n _ m t1 h
        · rcases makeRequest_cases urlErr ex method (alertsPath repo) [dorianPreview]
            (t ++ [checkRequest ex repo]) with ⟨e, hm⟩ | hm | ⟨res, e, hm⟩
          · rw [hm] at h; cases h
          · rw [hm] at h; cases h
          · rw [hm] at h ⊢
            cases e with
            | some err => cases h
            | none => exact ih (n + 1) _ m t1 h

theorem checkEnabled_ret_inv (urlErr : String → Option GoError) (ex : Executor)
    (repo : repository) (t t1 : Trace) (r : Bool × Option GoError)
    (h : checkEnabled urlErr ex repo t = (.ret r, t1)) :
    urlErr (checkRequest ex repo).url = none ∧ t1 = t ++ [checkRequest ex repo] := by
  rcases checkEnabled_cases urlErr ex repo t with hc | hc | ⟨r2, hc⟩
  · rw [hc] at h; cases h
  · rw [hc] at h; cases h
  · rw [hc] at h
    refine ⟨?_, by cases h; rfl⟩
    cases hu : urlErr (checkRequest ex repo).url with
    | none => rfl
    | some e =>
      have hm : makeRequest urlErr ex "GET" (alertsPath repo) [dorianPreview] t =
          (.ret (none, some e), t) := by
        have hu2 : urlErr (buildRequest ex "GET" (alertsPath repo) [dorianPreview]).url =
            some e := hu
        simp [makeRequest, hu2]
      simp [checkEnabled, hm] at hc

/-- C5: outside dry-run, take any repository of the list that is not archived,
reached with count `n` after the repositories before it, whose state check
succeeds with state `e`. If the state already matches the action, no mutating
call is sent for it: the only request is the state check, and the loop goes on to
the rest of the list with the count unchanged. Otherwise exactly one mutating
request follows the state check, PUT for `enable` and DELETE for `disable`, and
the count is incremented exactly when that call is answered with a status below
400. -/
theorem idempotent_skip (urlErr : String → Option GoError) (ex : Executor)
    (action : String) (pre : List repository) (repo : repository)
    (post : List repository) (t0 t t1 : Trace) (n : Nat) (e : Bool)
    (hdry : ex.dry = false)
    (hpre : updateVulnerabilityAlerts urlErr ex action pre t0 = (.ret (n, none), t))
    (harch : repo.Archived = false)
    (hchk : checkEnabled urlErr ex repo t = (.ret (e, none), t1)) :
    t1 = t ++ [checkRequest ex repo] ∧
    (action = "enable" ∨ action = "disable") ∧
    (action = "enable" → (mutateRequest ex action repo).method = "PUT") ∧
    (action = "disable" → (mutateRequest ex action repo).method = "DELETE") ∧
    (mutateRequest ex action repo).url = (checkRequest ex repo).url ∧
    (((!e && (action == "enable")) || (e && (action == "disable"))) = false →
      updateVulnerabilityAlerts urlErr ex action (pre ++ repo :: post) t0 =
          alertsLoop urlErr ex action (methodOf action) post n t1 ∧
        updateVulnerabilityAlerts urlErr ex action (pre ++ [repo]) t0 =
          (.ret (n, none), t1)) ∧
    (((!e && (action == "enable")) || (e && (action == "disable"))) = true →
      (ex.client t1 (mutateRequest ex action repo) = none →
        updateVulnerabilityAlerts urlErr ex action (pre ++ repo :: post) t0 =
          (.panic, t1 ++ [mutateRequest ex action repo])) ∧
      (∀ res, ex.client t1 (mutateRequest ex action repo) = some res →
        res.StatusCode ≥ 400 →
        updateVulnerabilityAlerts urlErr ex action (pre ++ repo :: post) t0 =
          (.ret (n, some (.wrap
            ("failed to update vulnerability alerts for repo " ++ repo.Name ++ ": ")
            (.new res.Status))), t1 ++ [mutateRequest ex action repo])) ∧
      (∀ res, ex.client t1 (mutateRequest ex action repo) = some res →
        res.StatusCode < 400 →
        updateVulnerabilityAlerts urlErr ex action (pre ++ repo :: post) t0 =
            alertsLoop urlErr ex action (methodOf action) post (n + 1)
              (t1 ++ [mutateRequest ex action repo]) ∧
          updateVulnerabilityAlerts urlErr ex action (pre ++ [repo]) t0 =
            (.ret (n + 1, none), t1 ++ [mutateRequest ex action repo]))) := by
  obtain ⟨hurl, ht1⟩ := checkEnabled_ret_inv urlErr ex repo t t1 _ hchk
  have hact : action = "enable" ∨ action = "disable" := by
    rcases updateVulnerabilityAlerts_cases urlErr ex action pre t0 with _ | ⟨_, _, h⟩
    · by_cases h1 : action = "enable"
      · exact Or.inl h1
      · by_cases h2 : action = "disable"
        · exact Or.inr h2
        · simp [updateVulnerabilityAlerts, h1, h2] at hpre
    · rw [h] at hpre; cases hpre
  have hloop : ∀ l : List repository,
      updateVulnerabilityAlerts urlErr ex action l t0 =
        alertsLoop urlErr ex action (methodOf action) l 0 t0 := by
    intro l
    unfold updateVulnerabilityAlerts methodOf
    rcases hact with h | h
    · simp [h]
    · subst h; simp
  have hgo : ∀ l : List repository,
      updateVulnerabilityAlerts urlErr ex action (pre ++ repo :: l) t0 =
        alertsLoop urlErr ex action (methodOf action) (repo :: l) n t := by
    intro l
    rw [hloop, alertsLoop_append urlErr ex action (methodOf action) (repo :: l) pre 0 t0 n t
      (by rw [← hloop]; exact hpre)]
  have hmurl : urlErr (buildRequest ex (methodOf action) (alertsPath repo)
      [dorianPreview]).url = none := hurl
  refine ⟨ht1, hact, fun h => by simp [mutateRequest, buildRequest, h],
    fun h => by subst h; simp [mutateRequest, buildRequest], rfl, fun hp => ?_,
    fun hp => ⟨fun hc => ?_, fun res hc hs => ?_, fun res hc hs => ?_⟩⟩
  · have key : ∀ l : List repository,
        updateVulnerabilityAlerts urlErr ex action (pre ++ repo :: l) t0 =
          alertsLoop urlErr ex action (methodOf action) l n t1 := by
      intro l
      rw [hgo, alertsLoop_checked _ _ _ _ _ _ _ _ _ _ harch hchk]
      simp only [hp, Bool.not_false, if_true]
    exact ⟨key post, by rw [key []]; rfl⟩
  · rw [hgo, alertsLoop_checked _ _ _ _ _ _ _ _ _ _ harch hchk]
    simp only [hp, Bool.not_true, Bool.false_eq_true, if_false, hdry]
    rw [makeRequest_down urlErr ex (methodOf action) (alertsPath repo) [dorianPreview] t1
      hmurl hc]
    rfl
  · rw [hgo, alertsLoop_checked _ _ _ _ _ _ _ _ _ _ harch hchk]
    simp only [hp, Bool.not_true, Bool.false_eq_true, if_false, hdry]
    rw [makeRequest_answered urlErr ex (methodOf action) (alertsPath repo) [dorianPreview] t1
      res hmurl hc]
    simp only [andThen_ret, hs, if_true]
    rfl
  · have key : ∀ l : List repository,
        updateVulnerabilityAlerts urlErr ex action (pre ++ repo :: l) t0 =
          alertsLoop urlErr ex action (methodOf action) l (n + 1)
            (t1 ++ [mutateRequest ex action repo]) := by
      intro l
      rw [hgo, alertsLoop_checked _ _ _ _ _ _ _ _ _ _ harch hchk]
      simp only [hp, Bool.not_true, Bool.false_eq_true, if_false, hdry]
      rw [makeRequest_answered urlErr ex (methodOf action) (alertsPath repo) [dorianPreview]
        t1 res hmurl hc]
      simp only [andThen_ret, Nat.not_le.mpr hs, if_false]
      rfl
    exact ⟨key post, by rw [key []]; rfl⟩

/-- On a server with alerts enabled: `enable` skips the second repository after
its state check, `disable` sends a DELETE for it and counts it. -/
theorem idempotent_skip_witness :
    updateVulnerabilityAlerts noErr exLive "enable" ([repoA] ++ [repoB]) [] =
        (.ret (0, none), [checkRequest exLive repoA, checkRequest exLive repoB]) ∧
      updateVulnerabilityAlerts noErr exLive "disable" ([repoA] ++ [repoB]) [] =
        (.ret (1 + 1, none),
          [checkRequest exLive repoA, mutateRequest exLive "disable" repoA,
            checkRequest exLive repoB] ++ [mutateRequest exLive "disable" repoB]) ∧
      (mutateRequest exLive "disable" repoB).method = "DELETE" :=
  ⟨((idempotent_skip noErr exLive "enable" [repoA] repoB [] []
      [checkRequest exLive repoA] [checkRequest exLive repoA, checkRequest exLive repoB]
      0 true rfl (by decide) rfl (by decide)).2.2.2.2.2.1 (by decide)).2,
    ((idempotent_skip noErr exLive "disable" [repoA] repoB [] []
      [checkRequest exLive repoA, mutateRequest exLive "disable" repoA]
      [checkRequest exLive repoA, mutateRequest exLive "disable" repoA,
        checkRequest exLive repoB]
      1 true rfl (by decide) rfl (by decide)).2.2.2.2.2.2 (by decide)).2.2
        noContent rfl (by decide) |>.2,
    by decide⟩

/-! ## Listing -/

/-- One turn of the listing loop on a page that is answered without error and
decodes. -/
theorem listLoop_step (urlErr : String → Option GoError) (ex : Executor) (org : String)
    (fuel page : Nat) (acc : List repository) (t : Trace) (res : Response)
    (repos : List repository)
    (hurl : urlErr (listRequest ex org page).url = none)
    (hres : ex.client t (listRequest ex org page) = some res)
    (hs : res.StatusCode < 400) (hb : res.Body = .ok repos) :
    listLoop urlErr ex org (fuel + 1) page acc t =
      if repos.length = 0 then (.ret (acc ++ repos, none), t ++ [listRequest ex org page])
      else listLoop urlErr ex org fuel (page + 1) (acc ++ repos)
        (t ++ [listRequest ex org page]) := by
  rw [listLoop, makeRequest_answered urlErr ex "GET" (listPath org page) [] t res hurl hres]
  simp only [andThen_ret, Nat.not_le.mpr hs, if_false, hb]
  rfl

theorem listLoop_pages (urlErr : String → Option GoError) (ex : Executor) (org : String) :
    ∀ (pages : List (List repository)) (fuel page : Nat) (acc : List repository)
      (t : Trace),
      (∀ p ∈ pages, p ≠ []) →
      (∀ i, i ≤ pages.length →
        urlErr (listRequest ex org (page + i)).url = none ∧
          ∃ res, ex.client (t ++ (List.range i).map fun j => listRequest ex org (page + j))
              (listRequest ex org (page + i)) = some res ∧
            res.StatusCode < 400 ∧ res.Body = .ok (pages.getD i [])) →
      pages.length < fuel →
      listLoop urlErr ex org fuel page acc t =
        (.ret (acc ++ pages.flatten, none),
          t ++ (List.range (pages.length + 1)).map fun j => listRequest ex org (page + j))
  | [], fuel, page, acc, t, _, hsrv, hfuel => by
    obtain ⟨f, rfl⟩ : ∃ f, fuel = f + 1 := ⟨fuel - 1, by simp at hfuel; omega⟩
    obtain ⟨hurl, res, hres, hs, hb⟩ := hsrv 0 (Nat.le_refl _)
    simp only [Nat.add_zero, List.range_zero, List.map_nil, List.append_nil,
      List.getD_nil] at hurl hres hb
    rw [listLoop_step urlErr ex org f page acc t res [] hurl hres hs hb]
    simp [List.range_succ]
  | p :: ps, fuel, page, acc, t, hne, hsrv, hfuel => by
    obtain ⟨f, rfl⟩ : ∃ f, fuel = f + 1 := ⟨fuel - 1, by simp at hfuel; omega⟩
    obtain ⟨hurl, res, hres, hs, hb⟩ := hsrv 0 (Nat.zero_le _)
    simp only [Nat.add_zero, List.range_zero, List.map_nil, List.append_nil,
      List.getD_cons_zero] at hurl hres hb
    have hp : p.length ≠ 0 := by
      have := hne p (List.mem_cons_self _ _)
      simpa [List.length_eq_zero] using this
    rw [listLoop_step urlErr ex org f page acc t res p hurl hres hs hb, if_neg hp]
    have hshift : ∀ i, (List.range (i + 1)).map (fun j => listRequest ex org (page + j)) =
        listRequest ex org page ::
          (List.range i).map fun j => listRequest ex org (page + 1 + j) := by
      intro i
      rw [List.range_succ_eq_map, List.map_cons, List.map_map]
      congr 1
      apply List.map_congr_left
      intro j _
      simp only [Function.comp, Nat.succ_eq_add_one]
      congr 1
      omega
    rw [listLoop_pages urlErr ex org ps f (page + 1) (acc ++ p) (t ++ [listRequest ex org page])
      (fun q hq => hne q (List.mem_cons_of_mem _ hq)) ?_ (by simp at hfuel; omega)]
    · rw [List.length_cons, hshift (ps.length + 1)]
      simp
    · intro i hi
      obtain ⟨hurl2, res2, hres2, hs2, hb2⟩ := hsrv (i + 1) (by simp; omega)
      rw [hshift i] at hres2
      rw [List.getD_cons_succ] at hb2
      have he : page + (i + 1) = page + 1 + i := by omega
      rw [he] at hurl2 hres2
      refine ⟨hurl2, res2, ?_, hs2, hb2⟩
      rw [List.append_assoc]
      exact hres2

/-- Every request of the listing loop is a GET of a page of the org. -/
theorem listLoop_requests (urlErr : String → Option GoError) (ex : Executor) (org : String) :
    ∀ (fuel page : Nat) (acc : List repository) (t : Trace),
      ∃ new, (listLoop urlErr ex org fuel page acc t).2 = t ++ new ∧
        ∀ q ∈ new, ∃ p, q = listRequest ex org p
  | 0, page, acc, t => ⟨[], by simp [listLoop], by simp⟩
  | fuel + 1, page, acc, t => by
    rw [listLoop]
    rcases makeRequest_cases urlErr ex "GET" (listPath org page) [] t with
      ⟨e, hm⟩ | hm | ⟨res, e, hm⟩
    · rw [hm]; exact ⟨[], by simp, by simp⟩
    · rw [hm]
      exact ⟨[listRequest ex org page], rfl, fun q hq => ⟨page, List.mem_singleton.mp hq⟩⟩
    · rw [hm]
      simp only [andThen_ret]
      have one : ∀ q ∈ [listRequest ex org page], ∃ p, q = listRequest ex org p :=
        fun q hq => ⟨page, List.mem_singleton.mp hq⟩
      cases e with
      | some err => exact ⟨[listRequest ex org page], rfl, one⟩
      | none =>
        cases hb : res.Body with
        | fail err =>
          simp only [hb]
          exact ⟨[listRequest ex org page], rfl, one⟩
        | ok repos =>
          simp only [hb]
          split_ifs
          · exact ⟨[listRequest ex org page], rfl, one⟩
          · obtain ⟨new, h1, h2⟩ := listLoop_requests urlErr ex org fuel (page + 1)
              (acc ++ repos) (t ++ [buildRequest ex "GET" (listPath org page) []])
            refine ⟨listRequest ex org page :: new, by rw [h1]; simp [listRequest], ?_⟩
            intro q hq
            rcases List.mem_cons.mp hq with rfl | hq
            · exact ⟨page, rfl⟩
            · exact h2 q hq

/-- C6: if the server answers pages 1..k with non-empty repository arrays and page
k+1 with an empty array, each with a status below 400, then `listRepositories`
returns, with a nil error, the concatenation of pages 1..k in order, after sending
exactly the k+1 requests for pages 1, 2, ..., k+1. -/
theorem pagination (urlErr : String → Option GoError) (ex : Executor) (org : String)
    (pages : List (List repository)) (t : Trace) (fuel : Nat)
    (hne : ∀ p ∈ pages, p ≠ [])
    (hsrv : ∀ i, i ≤ pages.length →
      urlErr (listRequest ex org (i + 1)).url = none ∧
        ∃ res, ex.client (t ++ (List.range i).map fun j => listRequest ex org (j + 1))
            (listRequest ex org (i + 1)) = some res ∧
          res.StatusCode < 400 ∧ res.Body = .ok (pages.getD i []))
    (hfuel : pages.length < fuel) :
    listRepositories urlErr ex fuel org t =
        (.ret (pages.flatten, none),
          t ++ (List.range (pages.length + 1)).map fun j => listRequest ex org (j + 1)) ∧
      (listRepositories urlErr ex fuel org t).2.length = t.length + (pages.length + 1) := by
  have hcomm : ∀ i, (List.range i).map (fun j => listRequest ex org (1 + j)) =
      (List.range i).map fun j => listRequest ex org (j + 1) := by
    intro i
    apply List.map_congr_left
    intro j _
    rw [Nat.add_comm]
  have h := listLoop_pages urlErr ex org pages fuel 1 [] t hne
    (fun i hi => by
      obtain ⟨h1, res, h2, h3, h4⟩ := hsrv i hi
      rw [hcomm i, Nat.add_comm 1 i]
      exact ⟨h1, res, h2, h3, h4⟩) hfuel
  rw [hcomm] at h
  have h2 : listRepositories urlErr ex fuel org t =
      (.ret (pages.flatten, none),
        t ++ (List.range (pages.length + 1)).map fun j => listRequest ex org (j + 1)) := by
    unfold listRepositories
    rw [h]
    simp
  refine ⟨h2, ?_⟩
  rw [h2]
  simp

/-- Two full pages and an empty one: 200 repositories after 3 requests. -/
theorem pagination_witness :
    (listRepositories noErr exPaged 3 "org" [] =
        (.ret ([fullPage "a", fullPage "b"].flatten, none),
          [] ++ (List.range ([fullPage "a", fullPage "b"].length + 1)).map
            fun j => listRequest exPaged "org" (j + 1)) ∧
      (listRepositories noErr exPaged 3 "org" []).2.length =
        ([] : Trace).length + ([fullPage "a", fullPage "b"].length + 1)) ∧
    [fullPage "a", fullPage "b"].flatten.length = 200 :=
  ⟨pagination noErr exPaged "org" [fullPage "a", fullPage "b"] [] 3
    (by decide)
    (fun i hi => by
      have hi : i ≤ 2 := hi
      interval_cases i
      · exact ⟨rfl, _, rfl, by decide, rfl⟩
      · exact ⟨rfl, _, rfl, by decide, rfl⟩
      · exact ⟨rfl, _, rfl, by decide, rfl⟩)
    (by decide),
   by simp only [fullPage, List.flatten_cons, List.flatten_nil, List.length_append,
     List.length_replicate, List.length_nil]⟩

/-! ## Run and its configuration checks -/

/-- With an action that is neither `enable` nor `disable` and no repo override,
`Run` lists the org before the action is looked at: two GET requests are sent
before the error is returned. -/
theorem run_lists_before_validating_action :
    ("bogus" ≠ "enable" ∧ "bogus" ≠ "disable") ∧
      Run noErr 5 "org" "bogus" true "" exTwo [] =
        (.ret (some (.new "action must be of value 'enable' or 'disable'")),
          [listRequest exTwo "org" 1, listRequest exTwo "org" 2]) ∧
      (Run noErr 5 "org" "bogus" true "" exTwo []).2 ≠ [] := by
  decide

/-- C8, amended: when org is empty or action is empty, or when action is neither
`enable` nor `disable` and a repo override is given, `Run` returns a non-nil error
and sends no request. When org is set, action is set but neither `enable` nor
`disable`, and there is no repo override, `Run` sends exactly the requests of the
listing of the org (GETs of its pages: no state check, no mutation) and returns a
non-nil error whenever the listing returns. -/
theorem run_config_errors (urlErr : String → Option GoError) (fuel : Nat)
    (org action : String) (fixes : Bool) (repo : String) (ex : Executor) (t : Trace)
    (hbad : org = "" ∨ action = "" ∨ (action ≠ "enable" ∧ action ≠ "disable")) :
    ((org = "" ∨ action = "" ∨ repo ≠ "") →
      ∃ e, Run urlErr fuel org action fixes repo ex t = (.ret (some e), t)) ∧
    (org ≠ "" → action ≠ "" → repo = "" →
      (Run urlErr fuel org action fixes repo ex t).2 =
          (listRepositories urlErr ex fuel org t).2 ∧
        (∃ new, (Run urlErr fuel org action fixes repo ex t).2 = t ++ new ∧
          ∀ q ∈ new, ∃ page, q = listRequest ex org page) ∧
        (∀ r, (listRepositories urlErr ex fuel org t).1 = .ret r →
          ∃ e, (Run urlErr fuel org action fixes repo ex t).1 = .ret (some e))) := by
  have hinv : ∀ (l : List repository) (t1 : Trace), org ≠ "" → action ≠ "" →
      updateVulnerabilityAlerts urlErr ex action l t1 =
        (.ret (0, some (.new "action must be of value 'enable' or 'disable'")), t1) := by
    intro l t1 ho ha
    rcases hbad with h | h | ⟨h1, h2⟩
    · exact absurd h ho
    · exact absurd h ha
    · simp [updateVulnerabilityAlerts, h1, h2]
  refine ⟨fun h => ?_, fun ho ha hr => ?_⟩
  · by_cases ho : org = ""
    · exact ⟨.new "missing org", by simp [Run, ho]⟩
    · by_cases ha : action = ""
      · exact ⟨.new "missing action", by simp [Run, ho, ha]⟩
      · have hr : repo ≠ "" := by
          rcases h with h | h | h
          · exact absurd h ho
          · exact absurd h ha
          · exact h
        exact ⟨.new "action must be of value 'enable' or 'disable'",
          by simp [Run, ho, ha, hr, hinv _ _ ho ha]⟩
  · have hrun : Run urlErr fuel org action fixes repo ex t =
        andThen (listRepositories urlErr ex fuel org t) fun r t1 =>
          match r.2 with
          | some err => (.ret (some err), t1)
          | none => (.ret (some (.new "action must be of value 'enable' or 'disable'")), t1) := by
      simp only [Run, ho, ha, hr, if_true, if_false]
      congr 1
      funext r t1
      cases r.2 with
      | some err => rfl
      | none => simp [hinv _ _ ho ha]
    have htrace : (Run urlErr fuel org action fixes repo ex t).2 =
        (listRepositories urlErr ex fuel org t).2 := by
      rw [hrun]
      rcases hl : listRepositories urlErr ex fuel org t with ⟨o, t1⟩
      cases o with
      | ret r => cases h2 : r.2 <;> simp [h2]
      | panic => rfl
      | hang => rfl
    refine ⟨htrace, ?_, ?_⟩
    · rw [htrace]
      exact listLoop_requests urlErr ex org fuel 1 [] t
    · intro r hl
      rw [hrun]
      rcases hl2 : listRepositories urlErr ex fuel org t with ⟨o, t1⟩
      rw [hl2] at hl
      simp only at hl
      subst hl
      cases h2 : r.2 with
      | some err => exact ⟨err, by simp [h2]⟩
      | none =>
        exact ⟨.new "action must be of value 'enable' or 'disable'", by simp [h2]⟩

/-- Missing org, missing action, a bad action with a repo override, and a bad
action without one. -/
theorem run_config_errors_witness :
    (∃ e, Run noErr 5 "" "enable" true "" exTwo [] = (.ret (some e), [])) ∧
      (∃ e, Run noErr 5 "org" "" true "" exTwo [] = (.ret (some e), [])) ∧
      (∃ e, Run noErr 5 "org" "bogus" true "repo1" exTwo [] = (.ret (some e), [])) ∧
      (∃ e, (Run noErr 5 "org" "bogus" true "" exTwo []).1 = .ret (some e)) :=
  ⟨(run_config_errors noErr 5 "" "enable" true "" exTwo [] (Or.inl rfl)).1 (Or.inl rfl),
    (run_config_errors noErr 5 "org" "" true "" exTwo [] (Or.inr (Or.inl rfl))).1
      (Or.inr (Or.inl rfl)),
    (run_config_errors noErr 5 "org" "bogus" true "repo1" exTwo []
      (Or.inr (Or.inr (by decide)))).1 (Or.inr (Or.inr (by decide))),
    ((run_config_errors noErr 5 "org" "bogus" true "" exTwo []
      (Or.inr (Or.inr (by decide)))).2 (by decide) (by decide) rfl).2.2
        ([repoA, repoB], none) (by decide)⟩

/-! ## The state check -/

/-- C3: whatever response the server gives to the state check, `checkEnabled`
returns `(false, nil)` on status 404 (although `makeRequest` reports an error for
it), `(true, nil)` on status 204, and `false` with a non-nil error on every other
status, the ones below 400 (for which `makeRequest` reports no error) included. -/
theorem checkEnabled_status_mapping (urlErr : String → Option GoError) (ex : Executor)
    (repo : repository) (t : Trace) (res : Response)
    (hurl : urlErr (buildRequest ex "GET" (alertsPath repo) [dorianPreview]).url = none)
    (hres : ex.client t (buildRequest ex "GET" (alertsPath repo) [dorianPreview]) = some res) :
    (res.StatusCode = 404 →
      (makeRequest urlErr ex "GET" (alertsPath repo) [dorianPreview] t).1 =
          .ret (some res, some (.new res.Status)) ∧
        checkEnabled urlErr ex repo t =
          (.ret (false, none), t ++ [buildRequest ex "GET" (alertsPath repo) [dorianPreview]])) ∧
    (res.StatusCode = 204 →
      checkEnabled urlErr ex repo t =
        (.ret (true, none), t ++ [buildRequest ex "GET" (alertsPath repo) [dorianPreview]])) ∧
    (res.StatusCode ≠ 404 → res.StatusCode ≠ 204 →
      checkEnabled urlErr ex repo t =
        (.ret (false, some (checkError repo res)),
          t ++ [buildRequest ex "GET" (alertsPath repo) [dorianPreview]])) ∧
    (res.StatusCode < 400 →
      (makeRequest urlErr ex "GET" (alertsPath repo) [dorianPreview] t).1 =
        .ret (some res, none)) := by
  have hm := makeRequest_answered urlErr ex "GET" (alertsPath repo) [dorianPreview] t res
    hurl hres
  refine ⟨fun h => ⟨?_, ?_⟩, fun h => ?_, fun h1 h2 => ?_, fun h1 => ?_⟩
  · rw [hm]; simp [h]
  · simp [checkEnabled, hm, h]
  · simp [checkEnabled, hm, h]
  · simp [checkEnabled, hm, h1, h2, checkError]
  · rw [hm]; simp [Nat.not_le.mpr h1]

/-- Statuses 404, 204, 200 and 500 on concrete servers. -/
theorem checkEnabled_status_mapping_witness :
    checkEnabled noErr ⟨fun _ _ => some notFound, "token", false, false⟩ repoOrg [] =
        (.ret (false, none), [buildRequest exDown "GET" (alertsPath repoOrg) [dorianPreview]]) ∧
      checkEnabled noErr ⟨enabledClient, "token", false, false⟩ repoOrg [] =
        (.ret (true, none), [buildRequest exDown "GET" (alertsPath repoOrg) [dorianPreview]]) ∧
      checkEnabled noErr ⟨fun _ _ => some ⟨200, "200 OK", .ok []⟩, "token", false, false⟩
          repoOrg [] =
        (.ret (false, some (.wrapNil
            "failed to check vulnerability alerts config for repo repo: ")),
          [buildRequest exDown "GET" (alertsPath repoOrg) [dorianPreview]]) ∧
      checkEnabled noErr ⟨fun _ _ => some serverError, "token", false, false⟩ repoOrg [] =
        (.ret (false, some (.wrap
            "failed to check vulnerability alerts config for repo repo: "
            (.new "500 Internal Server Error"))),
          [buildRequest exDown "GET" (alertsPath repoOrg) [dorianPreview]]) :=
  ⟨((checkEnabled_status_mapping noErr ⟨fun _ _ => some notFound, "token", false, false⟩
      repoOrg [] notFound rfl rfl).1 rfl).2,
    (checkEnabled_status_mapping noErr ⟨enabledClient, "token", false, false⟩
      repoOrg [] noContent rfl rfl).2.1 rfl,
    (checkEnabled_status_mapping noErr
      ⟨fun _ _ => some ⟨200, "200 OK", .ok []⟩, "token", false, false⟩
      repoOrg [] ⟨200, "200 OK", .ok []⟩ rfl rfl).2.2.1 (by decide) (by decide),
    (checkEnabled_status_mapping noErr
      ⟨fun _ _ => some serverError, "token", false, false⟩
      repoOrg [] serverError rfl rfl).2.2.1 (by decide) (by decide)⟩

/-! ## Evaluations at concrete inputs -/

/-- C7: when the client produces no response, `makeRequest` dereferences the nil
response and panics instead of returning an error; so do `checkEnabled`,
`updateVulnerabilityAlerts` and `updateSecurityFixes` on a one-repository list. -/
theorem transport_failure_panics :
    makeRequest noErr exDown "GET" (alertsPath repoOrg) [dorianPreview] [] =
        (.panic, [buildRequest exDown "GET" (alertsPath repoOrg) [dorianPreview]]) ∧
      (checkEnabled noErr exDown repoOrg []).1 = .panic ∧
      (updateVulnerabilityAlerts noErr exDown "enable" [repoOrg] []).1 = .panic ∧
      (updateVulnerabilityAlerts noErr exDown "disable" [repoOrg] []).1 = .panic ∧
      (updateSecurityFixes noErr exDown true [repoOrg] []).1 = .panic ∧
      (updateSecurityFixes noErr exDown false [repoOrg] []).1 = .panic := by
  decide

/-- C2: the error of a failed state check is dropped. With the second of three
repositories failing its check, `disable` goes on to the third repository and
returns count 2 with a nil error; `enable` sends the PUT for the failing
repository itself and returns a nil error too. -/
theorem failed_state_check_is_ignored :
    (updateVulnerabilityAlerts noErr exFlaky "disable" threeRepos []).1 = .ret (2, none) ∧
      summary (updateVulnerabilityAlerts noErr exFlaky "disable" threeRepos []).2 =
        [("GET", "https://api.github.com/repos/org/repo1/vulnerability-alerts"),
         ("DELETE", "https://api.github.com/repos/org/repo1/vulnerability-alerts"),
         ("GET", "https://api.github.com/repos/org/repo2/vulnerability-alerts"),
         ("GET", "https://api.github.com/repos/org/repo3/vulnerability-alerts"),
         ("DELETE", "https://api.github.com/repos/org/repo3/vulnerability-alerts")] ∧
      (checkEnabled noErr exFlaky ⟨false, "repo2", ⟨"org"⟩⟩
        [buildRequest exFlaky "GET" "repos/org/repo1/vulnerability-alerts" [dorianPreview],
         buildRequest exFlaky "DELETE" "repos/org/repo1/vulnerability-alerts"
           [dorianPreview]]).1 =
        .ret (false, some (.wrap
          "failed to check vulnerability alerts config for repo repo2: "
          (.new "500 Internal Server Error"))) ∧
      (updateVulnerabilityAlerts noErr exFlaky "enable" threeRepos []).1 = .ret (1, none) ∧
      summary (updateVulnerabilityAlerts noErr exFlaky "enable" threeRepos []).2 =
        [("GET", "https://api.github.com/repos/org/repo1/vulnerability-alerts"),
         ("GET", "https://api.github.com/repos/org/repo2/vulnerability-alerts"),
         ("PUT", "https://api.github.com/repos/org/repo2/vulnerability-alerts"),
         ("GET", "https://api.github.com/repos/org/repo3/vulnerability-alerts")] := by
  decide

/-- C9: with both token variables set, the loop of `getConfig` has no break and
the later variable overwrites the earlier: the token is the value of
`GITHUB_TOKEN`, not that of `GITHUB_VUL_TOKEN`. -/
theorem token_last_variable_wins :
    envBothTokens "GITHUB_VUL_TOKEN" = "specific" ∧
      envBothTokens "GITHUB_TOKEN" = "generic" ∧
      (getConfig envBothTokens).token = "generic" := by
  decide

/-- C10: the default of the `-repo` flag is `config.action`. With the action taken
from `GITHUB_VUL_ACTION` and no `-repo` on the command line, `main` hands the
action to `Run` as the repository, and `Run` checks the single repository
`org/enable` instead of listing the org. -/
theorem repo_defaults_to_action :
    flagsDryOnly.repo = none ∧
      (flagValues envAction flagsDryOnly).repo = "enable" ∧
      summary (main noErr enabledClient 5 envAction flagsDryOnly []).2 =
        [("GET", "https://api.github.com/repos/org/enable/vulnerability-alerts")] := by
  decide

end GithubVul
